import Mathlib

/-!
Verification development for the GPX track-annotation pipeline of
`static/tours/tour-maps.js` (Micro.blog hiking-tours plugin).

The JavaScript is embedded shallowly:

* geographic coordinates are modelled as rationals (`ℚ`); the spec's claims
  concern decimal rounding and linear arithmetic, for which `ℚ` matches the
  intended semantics of the JS numbers appearing in these code paths;
* `Number.prototype.toFixed(6)` is modelled by `fixed6`: the sign of the
  input is printed, and the absolute value is rounded to the closest
  multiple of `10⁻⁶`, ties away from zero, exactly as ECMA-262 specifies;
* external Leaflet collaborators (`L.latLng(..).distanceTo`, the map object
  with `getBoundsZoom`/`getMinZoom`/`getMaxZoom`) are parameters of the
  embedded functions; the repository's own logic is translated directly;
* DOM side effects (adding a marker to the map, `console.warn`) are
  modelled by returning the list of created markers; `try/catch` around
  `JSON.parse` is modelled by an `Option`-valued parse result;
* JS falsy tests on coordinate fields (`!peak.lat`) see a missing / null /
  empty-string field as `none` and the number `0` as `some 0`.
-/

/-- A Leaflet `LatLng`-style point: an object with numeric `lat`/`lng`. -/
structure Pt where
  lat : ℚ
  lng : ℚ
deriving DecidableEq, Repr

/-! ### `toFixed(6)` and `coordKey` (tour-maps.js lines 86-88) -/

/-- The character of a single decimal digit (`'0'` … `'9'`). -/
def digitCh (d : ℕ) : Char := Char.ofNat (48 + d)

/-- Decimal digits of `n`, least significant first; `fuel ≥ n` suffices. -/
def natReprAux : ℕ → ℕ → List Char
  | 0, _ => []
  | _ + 1, 0 => []
  | fuel + 1, n + 1 => digitCh ((n + 1) % 10) :: natReprAux fuel ((n + 1) / 10)

/-- Base-10 rendering of a natural number, as JS renders array indices and
integer parts of numbers. -/
def natRepr (n : ℕ) : List Char :=
  if n = 0 then ['0'] else (natReprAux n n).reverse

/-- The 6 digits after the decimal point: `f < 10⁶` zero-padded to width 6. -/
def frac6 (f : ℕ) : List Char :=
  List.replicate (6 - (natRepr f).length) '0' ++ natRepr f

/-- `|q|` rounded to an integer count of `10⁻⁶` units, ties away from zero:
the `n` of ECMA-262 `Number.prototype.toFixed` applied to `|q|`. -/
def round6abs (q : ℚ) : ℕ := (⌊|q| * 1000000 + 1 / 2⌋).toNat

/-- Character data of `q.toFixed(6)`: optional sign, integer part, dot,
six fraction digits. -/
def fixed6Data (q : ℚ) : List Char :=
  (if q < 0 then ['-'] else []) ++
    natRepr (round6abs q / 1000000) ++ '.' :: frac6 (round6abs q % 1000000)

/-- `q.toFixed(6)` as a string. -/
def fixed6 (q : ℚ) : String := String.mk (fixed6Data q)

/-- tour-maps.js `coordKey`: the template string
`lat.toFixed(6) + ":" + lng.toFixed(6)` used to deduplicate peaks. -/
def coordKey (lat lng : ℚ) : String := fixed6 lat ++ (":") ++ fixed6 lng

/-! ### `isValidCoordinate` (tour-maps.js lines 96-102)

`parseFloat` of an already-numeric value is the identity and rationals are
always finite, so only the range checks remain. -/

/-- tour-maps.js `isValidCoordinate`. -/
def isValidCoordinate (lat lng : ℚ) : Bool :=
  decide (-90 ≤ lat) && decide (lat ≤ 90) &&
    decide (-180 ≤ lng) && decide (lng ≤ 180)

/-! ### Peak deduplication (`addPeakMarkers`, tour-maps.js lines 593-654) -/

/-- One raw entry of the HTML-attribute-encoded `data-peaks` JSON array.
`none` in a coordinate field models a missing / `null` / empty-string value
(all falsy, all rejected by `!peak.lat`), `some q` a numeric value. -/
structure RawPeak where
  lat : Option ℚ
  lng : Option ℚ
  label : Option String
  number : Option ℤ
deriving DecidableEq, Repr

/-- The per-key record built in `peakIndex[key]`. -/
structure PeakInfo where
  lat : ℚ
  lng : ℚ
  label : Option String
  numbers : List ℤ
  count : ℕ
deriving DecidableEq, Repr

/-- The `peakIndex` object: string keys in insertion order (JS objects
preserve insertion order for non-index string keys such as these). -/
abbrev PeakIdx := List (String × PeakInfo)

/-- `peakIndex[key]` lookup. -/
def lookupIdx : PeakIdx → String → Option PeakInfo
  | [], _ => none
  | (k, info) :: rest, key => if k = key then some info else lookupIdx rest key

/-- One `peaks.forEach` body's effect on `peakIndex` after validation:
`if (!peakIndex[key]) { peakIndex[key] = {lat, lng, label, numbers: [], count: 0}; }
peakIndex[key].numbers.push(peak.number || 0); peakIndex[key].count += 1;`. -/
def updateIndex : PeakIdx → String → ℚ → ℚ → Option String → ℤ → PeakIdx
  | [], key, lat, lng, label, num => [(key, ⟨lat, lng, label, [num], 1⟩)]
  | (k, info) :: rest, key, lat, lng, label, num =>
    if k = key then
      (k, { info with numbers := info.numbers ++ [num], count := info.count + 1 }) :: rest
    else
      (k, info) :: updateIndex rest key lat lng label num

/-- The full `peaks.forEach` body: the falsy test `!peak.lat || !peak.lng`
(rejecting missing fields and the number 0), then `isValidCoordinate`,
then the index update keyed by `coordKey`. -/
def processPeak (idx : PeakIdx) (peak : RawPeak) : PeakIdx :=
  match peak.lat, peak.lng with
  | some lat, some lng =>
    if lat = 0 ∨ lng = 0 then idx
    else if isValidCoordinate lat lng then
      updateIndex idx (coordKey lat lng) lat lng peak.label (peak.number.getD 0)
    else idx
  | _, _ => idx

/-- The deduplication fold of `addPeakMarkers`. -/
def buildPeakIndex (peaks : List RawPeak) : PeakIdx :=
  peaks.foldl processPeak []

/-- A rendered peak marker, keeping the registry key, icon scale, badge
numbers, occurrence count and bound popup label. -/
structure PeakMarker where
  key : String
  lat : ℚ
  lng : ℚ
  iconScale : ℕ
  numbers : List ℤ
  occurrenceCount : ℕ
  popup : Option String
deriving DecidableEq, Repr

/-- `if (info.label) marker.bindPopup(info.label)`: a popup is bound only
for a JS-truthy (present, non-empty) label. -/
def popupOf (label : Option String) : Option String :=
  match label with
  | some s => if s.isEmpty then none else some s
  | none => none

/-- tour-maps.js `addPeakMarkers`, from decoded peak data to the markers
added to the map. `none` models `JSON.parse` throwing on malformed data:
the `catch` block logs and no markers are rendered. -/
def addPeakMarkers (data : Option (List RawPeak)) : List PeakMarker :=
  match data with
  | none => []
  | some peaks =>
    (buildPeakIndex peaks).map fun kv =>
      ⟨kv.1, kv.2.lat, kv.2.lng, if kv.2.count > 1 then 2 else 1,
        kv.2.numbers, kv.2.count, popupOf kv.2.label⟩

/-! ### `collectLatLngs` (tour-maps.js lines 183-197) -/

/-- A JS value reachable from `line.getLatLngs()`: an array, an object with
numeric `lat` and `lng`, or anything else (dropped). -/
inductive LL where
  | pt : Pt → LL
  | arr : List LL → LL
  | other : LL

/-- The `latLngs.forEach` body of `collectLatLngs`, threading the `target`
accumulator: arrays recurse, points are pushed, the rest is dropped. -/
def collectEntries : List LL → List Pt → List Pt
  | [], target => target
  | LL.arr es :: rest, target => collectEntries rest (collectEntries es target)
  | LL.pt p :: rest, target => collectEntries rest (target ++ [p])
  | LL.other :: rest, target => collectEntries rest target

/-- tour-maps.js `collectLatLngs`: a falsy or non-array argument returns
`target` unchanged, an array is traversed. -/
def collectLatLngs (latLngs : LL) (target : List Pt) : List Pt :=
  match latLngs with
  | LL.arr es => collectEntries es target
  | _ => target

/-- Spec-side definition (section 4.2 / 8 of the spec): the leaf GeoPoints
of a nested structure in depth-first order. Used to state that
`collectLatLngs` refines the spec's `collect`. -/
def specLeafList : List LL → List Pt
  | [] => []
  | LL.arr es :: rest => specLeafList es ++ specLeafList rest
  | LL.pt p :: rest => p :: specLeafList rest
  | LL.other :: rest => specLeafList rest

/-- The total count of leaf GeoPoints in a nested structure. -/
def numLeafList : List LL → ℕ
  | [] => 0
  | LL.arr es :: rest => numLeafList es + numLeafList rest
  | LL.pt _ :: rest => 1 + numLeafList rest
  | LL.other :: rest => numLeafList rest

/-! ### Track sampling for arrow placement (tour-maps.js lines 397-408) -/

/-- `Array.prototype.filter((_, i) => i % sampleRate === 0)` starting at
index `i`. -/
def filterIdx (rate : ℕ) : ℕ → List Pt → List Pt
  | _, [] => []
  | i, p :: rest =>
    if i % rate = 0 then p :: filterIdx rate (i + 1) rest
    else filterIdx rate (i + 1) rest

/-- The sampling step of `addDirectionArrows`: stride-5 filtering (stride
`max 5 ⌊n/200⌋` for tracks over 1000 points), then the final point is pushed
when the filter did not already keep it.  The JS compares the two candidate
final points with `!==`; track points are distinct Leaflet objects, so this
is value inequality here. -/
def sampleTrackPoints (pts : List Pt) : List Pt :=
  let rate := if pts.length > 1000 then max 5 (pts.length / 200) else 5
  let sampled := filterIdx rate 0 pts
  match pts.getLast? with
  | none => sampled
  | some last => if sampled.getLast? = some last then sampled else sampled ++ [last]

/-! ### Direction arrows (`addDirectionArrows`, tour-maps.js lines 370-439)

`CONFIG.ARROW_SPACING_METERS = 400`, so the first marker target is
`400 / 2 = 200` and targets advance by `400`.  Segment lengths come from
`distanceBetween`, a thin wrapper around Leaflet's geodesic
`LatLng.distanceTo`, which is external: it is a parameter here. -/

/-- An emitted direction arrow: the interpolated position together with the
segment endpoints it was interpolated in (the icon's rotation is
`bearingBetween prev cur` of exactly these endpoints). -/
structure ArrowMarker where
  lat : ℚ
  lng : ℚ
  prev : Pt
  cur : Pt
deriving DecidableEq, Repr

/-- The body of the inner `while` loop of `addDirectionArrows` for marker
target `next`: `ratio = (next - travelled) / segDist` and the position is
linearly interpolated between `prev` and `cur`. -/
def mkArrowAt (prev cur : Pt) (segDist travelled next : ℚ) : ArrowMarker :=
  ⟨prev.lat + (cur.lat - prev.lat) * ((next - travelled) / segDist),
    prev.lng + (cur.lng - prev.lng) * ((next - travelled) / segDist),
    prev, cur⟩

/-- The inner `while (travelled + segmentDistance >= nextMarkerDistance)`
loop of `addDirectionArrows`: emits the markers that fall inside the current
segment and returns them with the final `nextMarkerDistance`. -/
def arrowWhile (prev cur : Pt) (segDist travelled next : ℚ) : List ArrowMarker × ℚ :=
  if h : travelled + segDist ≥ next then
    let m : ArrowMarker := mkArrowAt prev cur segDist travelled next
    let r := arrowWhile prev cur segDist travelled (next + 400)
    (m :: r.1, r.2)
  else ([], next)
termination_by (⌊(travelled + segDist - next) / 400⌋ + 1).toNat
decreasing_by
  have h0 : (0:ℚ) ≤ travelled + segDist - next := by linarith
  have h1 : (travelled + segDist - (next + 400)) / 400
      = (travelled + segDist - next) / 400 - 1 := by ring
  have h2 : (0:ℤ) ≤ ⌊(travelled + segDist - next) / 400⌋ :=
    Int.floor_nonneg.mpr (by positivity)
  rw [h1, Int.floor_sub_one]
  omega

/-- The outer `for (let i = 1; i < trackPoints.length; i++)` loop:
zero-length segments are skipped (`if (!segmentDistance) continue`),
otherwise the while loop runs and `travelled` advances. -/
def arrowLoop (distanceBetween : Pt → Pt → ℚ) :
    Pt → List Pt → ℚ → ℚ → List ArrowMarker
  | _, [], _, _ => []
  | prev, cur :: rest, travelled, next =>
    let segDist := distanceBetween prev cur
    if segDist = 0 then arrowLoop distanceBetween cur rest travelled next
    else
      let r := arrowWhile prev cur segDist travelled next
      r.1 ++ arrowLoop distanceBetween cur rest (travelled + segDist) r.2

/-- tour-maps.js `addDirectionArrows` on an already-flattened point list:
fewer than 2 points emit nothing, otherwise the sampled track is walked
with first target `spacing / 2 = 200`. -/
def addDirectionArrows (distanceBetween : Pt → Pt → ℚ) (allTrackPoints : List Pt) :
    List ArrowMarker :=
  if allTrackPoints.length < 2 then []
  else
    match sampleTrackPoints allTrackPoints with
    | [] => []
    | p :: rest => arrowLoop distanceBetween p rest 0 200

/-- The external segment-length function for a due-north straight track laid
out so that one unit of latitude is one metre: the geodesic distance between
consecutive points is then their latitude difference. -/
def straightDist (a b : Pt) : ℚ := b.lat - a.lat

/-- Number of marker targets `next, next + 400, next + 400·2, …` that are
`≤ limit`. -/
def numTargets (next limit : ℚ) : ℕ :=
  if next ≤ limit then (⌊(limit - next) / 400⌋ + 1).toNat else 0

/-- Spec-side definition (section 8 of the spec): the number of arrows on a
straight track of length `L` with spacing `S = 400` is
`⌊(L - S/2) / S⌋ + 1` when `L ≥ S/2` and `0` otherwise. -/
def specNumArrows (L : ℚ) : ℕ :=
  if 200 ≤ L then (⌊(L - 200) / 400⌋ + 1).toNat else 0

/-! ### `bearingBetween` (tour-maps.js lines 167-178)

The trigonometric formula is evaluated over `ℝ`; `Math.atan2(y, x)` is the
argument of the complex number `x + y·i` (zero at the origin, exactly as
`Math.atan2(0, 0) = 0`), and `%` is the JS truncated remainder. -/

/-- `Math.atan2`. -/
noncomputable def jsAtan2 (y x : ℝ) : ℝ := Complex.arg ⟨x, y⟩

/-- Truncation toward zero, as JS `%` uses. -/
noncomputable def jsTrunc (r : ℝ) : ℤ := if 0 ≤ r then ⌊r⌋ else -⌊-r⌋

/-- The JS `%` operator on finite operands: `a - b * trunc (a / b)`. -/
noncomputable def jsMod (a b : ℝ) : ℝ := a - b * jsTrunc (a / b)

/-- tour-maps.js `bearingBetween`: `0` when either argument is absent,
otherwise the initial spherical bearing mapped into degrees with
`(bearing + 360) % 360`. -/
noncomputable def bearingBetween (a b : Option Pt) : ℝ :=
  match a, b with
  | some a, some b =>
    let lat1 := (a.lat : ℝ) * (Real.pi / 180)
    let lat2 := (b.lat : ℝ) * (Real.pi / 180)
    let deltaLng := ((b.lng : ℝ) - (a.lng : ℝ)) * (Real.pi / 180)
    let y := Real.sin deltaLng * Real.cos lat2
    let x := Real.cos lat1 * Real.sin lat2 -
      Real.sin lat1 * Real.cos lat2 * Real.cos deltaLng
    jsMod (jsAtan2 y x * (180 / Real.pi) + 360) 360
  | _, _ => 0

/-! ### `zoomTrackToMax` (tour-maps.js lines 309-338)

The map and its `getBoundsZoom` are external Leaflet collaborators; the
repository's own logic is the guarding and clamping around them.  A JS
number is finite, `NaN` or an infinity. -/

/-- A JS number. -/
inductive JsNum where
  | fin : ℚ → JsNum
  | nan : JsNum
  | posInf : JsNum
  | negInf : JsNum
deriving DecidableEq, Repr

/-- `typeof v === 'number' && isFinite(v)` for a possibly-undefined value
(`none` models `undefined`). -/
def isFiniteNum : Option JsNum → Bool
  | some (JsNum.fin _) => true
  | _ => false

/-- The Leaflet bounds object as `zoomTrackToMax` sees it: its `isValid()`
answer and its `getCenter()`. -/
structure LeafBounds where
  validB : Bool
  center : Pt
deriving DecidableEq, Repr

/-- The Leaflet map object as `zoomTrackToMax` sees it: `getBoundsZoom`
and the configured min/max zoom (`none` models `undefined`). -/
structure LMap where
  boundsZoom : LeafBounds → JsNum
  minZoom : Option JsNum
  maxZoom : Option JsNum

/-- tour-maps.js `zoomTrackToMax`: `none` models the early `return`
(no-op), `some (c, z)` models `map.setView(c, z)`.  Absent arguments and
invalid bounds are rejected, a non-finite `getBoundsZoom` result is
rejected, and the zoom is clamped by the finite configured bounds. -/
def zoomTrackToMax (m : Option LMap) (bounds : Option LeafBounds) :
    Option (Pt × JsNum) :=
  match m, bounds with
  | some m, some b =>
    if !b.validB then none
    else
      match m.boundsZoom b with
      | JsNum.fin q =>
        let q1 := match m.minZoom with
          | some (JsNum.fin mn) => max q mn
          | _ => q
        let q2 := match m.maxZoom with
          | some (JsNum.fin mx) => min q1 mx
          | _ => q1
        some (b.center, JsNum.fin q2)
      | _ => none
  | _, _ => none

/-- Spec-side definition (section 4.6 of the spec): clamp a computed zoom
into `[minZoom, maxZoom]` when the surface defines them. -/
def specClampZoom (t : ℚ) (mn mx : Option ℚ) : ℚ :=
  let a := match mn with
    | some v => max t v
    | none => t
  match mx with
  | some v => min a v
  | none => a

/-- The finite numeric value of a possibly-undefined JS number, if any:
the values that pass `typeof v === 'number' && isFinite(v)`. -/
def finOf : Option JsNum → Option ℚ
  | some (JsNum.fin q) => some q
  | _ => none

/-! ### `initMap` idempotency (tour-maps.js lines 663, 694-703)

`initializedMaps` is a `WeakMap` keyed by the canvas element; `initMap`
returns immediately when the canvas is present and otherwise marks it
before doing any work.  Canvases are abstract identifiers, the registry is
the set of marked canvases, and a trigger sequence is a list of canvases in
the order the (single-threaded) event loop delivers resize / intersection /
scroll events. -/

/-- One `initMap(canvas)` call (with Leaflet loaded and a non-null canvas):
returns the new registry and whether this call performed initialization. -/
def initMapStep (inited : List ℕ) (canvas : ℕ) : List ℕ × Bool :=
  if canvas ∈ inited then (inited, false) else (canvas :: inited, true)

/-- Run a sequence of triggers against the registry, logging for each
trigger whether its `initMap` call performed initialization. -/
def runTriggers : List ℕ → List ℕ → List (ℕ × Bool)
  | _, [] => []
  | s, c :: rest =>
    let r := initMapStep s c
    (c, r.2) :: runTriggers r.1 rest

/-- How many calls in the trigger sequence performed initialization of the
given canvas, starting from registry state `s`. -/
def countInitsFrom (s : List ℕ) (triggers : List ℕ) (canvas : ℕ) : ℕ :=
  ((runTriggers s triggers).filter fun e => e.1 == canvas && e.2).length

/-- How many calls in the trigger sequence performed initialization of the
given canvas, starting from the pristine registry. -/
def countInits (triggers : List ℕ) (canvas : ℕ) : ℕ :=
  countInitsFrom [] triggers canvas

/-- The numeric value of a digit string read least-significant-digit
first; a left inverse of `natReprAux` used to prove key injectivity. -/
def valLSD : List Char → ℕ
  | [] => 0
  | c :: cs => (c.toNat - 48) + 10 * valLSD cs

/-- The numeric value of a digit string read most-significant-digit first
(insensitive to leading zeros); a left inverse of `frac6`. -/
def valMSD (l : List Char) : ℕ :=
  l.foldl (fun acc c => acc * 10 + (c.toNat - 48)) 0

/-! ## Theorems -/

/-! ### C8: `initMap` idempotency per canvas -/

theorem countInitsFrom_eq (triggers : List ℕ) :
    ∀ (s : List ℕ) (c : ℕ),
      countInitsFrom s triggers c = if c ∈ triggers ∧ c ∉ s then 1 else 0 := by
  induction triggers with
  | nil => intro s c; simp [countInitsFrom, runTriggers]
  | cons t rest ih =>
    intro s c
    by_cases htc : t = c
    · subst htc
      by_cases hs : t ∈ s
      · have h1 : initMapStep s t = (s, false) := by simp [initMapStep, hs]
        simp only [countInitsFrom, runTriggers, h1, List.filter]
        have h2 := ih s t
        simp only [countInitsFrom] at h2
        simp [h2, hs]
      · have h1 : initMapStep s t = (t :: s, true) := by simp [initMapStep, hs]
        simp only [countInitsFrom, runTriggers, h1, List.filter]
        have h2 := ih (t :: s) t
        simp only [countInitsFrom] at h2
        simp [h2, hs]
    · have h1 : (initMapStep s t).1 = s ∨ (initMapStep s t).1 = t :: s := by
        by_cases hs : t ∈ s <;> simp [initMapStep, hs]
      have hct : ¬c = t := fun hh => htc hh.symm
      have hmem : c ∈ (initMapStep s t).1 ↔ c ∈ s := by
        rcases h1 with h | h
        · rw [h]
        · rw [h]
          simp [List.mem_cons, hct]
      have h2 := ih ((initMapStep s t).1) c
      simp only [countInitsFrom] at h2 ⊢
      simp only [runTriggers, List.filter]
      have hne : (t == c) = false := by simp [htc]
      simp [hne, h2, hmem, List.mem_cons, hct]

/-- Claim C8: map initialization is idempotent per canvas: across any
sequence of `initMap` triggers on the same canvas, exactly the first call
performs initialization (one performs if the canvas is triggered at all)
and every subsequent call, e.g. an immediate re-trigger, is a no-op. -/
theorem initMap_idempotent_per_canvas :
    (∀ (triggers : List ℕ) (canvas : ℕ),
        countInits triggers canvas = if canvas ∈ triggers then 1 else 0)
    ∧ (∀ canvas : ℕ, (initMapStep [] canvas).2 = true)
    ∧ ∀ (s : List ℕ) (canvas : ℕ),
        (initMapStep (initMapStep s canvas).1 canvas).2 = false := by
  refine ⟨fun triggers canvas => ?_, fun canvas => by simp [initMapStep], ?_⟩
  · rw [countInits, countInitsFrom_eq]
    simp
  · intro s canvas
    by_cases hs : canvas ∈ s <;> simp [initMapStep, hs]

/-! ### C10: falsy (zero / missing) coordinates are dropped before range
validation -/

/-- Claim C10: a raw peak entry whose `lat` or `lng` field is JS-falsy
(missing/null/empty → `none`, or the number `0`) is dropped by
`addPeakMarkers` before range validation — it leaves the peak index exactly
as it was, contributing no marker and no `numbers`/`count` increment —
even though `lat = 0` and `lng = 0` satisfy `isValidCoordinate`. -/
theorem falsy_zero_peak_dropped :
    (∀ (idx : PeakIdx) (p : RawPeak),
        p.lat = none ∨ p.lat = some 0 ∨ p.lng = none ∨ p.lng = some 0 →
        processPeak idx p = idx)
    ∧ (∀ (xs ys : List RawPeak) (p : RawPeak),
        p.lat = none ∨ p.lat = some 0 ∨ p.lng = none ∨ p.lng = some 0 →
        buildPeakIndex (xs ++ p :: ys) = buildPeakIndex (xs ++ ys))
    ∧ isValidCoordinate 0 0 = true := by
  have hdrop : ∀ (idx : PeakIdx) (p : RawPeak),
      p.lat = none ∨ p.lat = some 0 ∨ p.lng = none ∨ p.lng = some 0 →
      processPeak idx p = idx := by
    intro idx p hp
    rcases p with ⟨plat, plng, plab, pnum⟩
    rcases hp with h | h | h | h <;> simp_all [processPeak] <;>
      cases plat <;> cases plng <;> simp_all [processPeak]
  refine ⟨hdrop, fun xs ys p hp => ?_, by norm_num [isValidCoordinate]⟩
  simp only [buildPeakIndex, List.foldl_append, List.foldl_cons]
  rw [hdrop _ p hp]

theorem falsy_zero_peak_dropped_witness :
    processPeak [] ⟨some 0, some 10, none, none⟩ = [] ∧
      buildPeakIndex
          ([⟨some 1, some 2, none, none⟩] ++
            (⟨some 0, some 10, none, none⟩ : RawPeak) :: []) =
        buildPeakIndex ([⟨some 1, some 2, none, none⟩] ++ []) :=
  ⟨falsy_zero_peak_dropped.1 [] ⟨some 0, some 10, none, none⟩
      (Or.inr (Or.inl rfl)),
    falsy_zero_peak_dropped.2.1 [⟨some 1, some 2, none, none⟩] []
      ⟨some 0, some 10, none, none⟩ (Or.inr (Or.inl rfl))⟩

/-! ### C9: malformed peak JSON and invalid entries are non-fatal -/

/-- Claim C9: when the decoded `data-peaks` content fails to parse as JSON
the `catch` block leaves the instance with no peak markers (the function
returns normally), and an individual entry with out-of-range coordinates is
skipped without affecting what the other entries produce. -/
theorem malformed_peaks_nonfatal :
    addPeakMarkers none = []
    ∧ ∀ (xs ys : List RawPeak) (lat lng : ℚ) (lab : Option String)
        (num : Option ℤ),
        ¬(lat = 0 ∨ lng = 0) →
        isValidCoordinate lat lng = false →
        buildPeakIndex (xs ++ (⟨some lat, some lng, lab, num⟩ : RawPeak) :: ys) =
          buildPeakIndex (xs ++ ys) := by
  refine ⟨rfl, fun xs ys lat lng lab num hnz hval => ?_⟩
  simp only [buildPeakIndex, List.foldl_append, List.foldl_cons]
  have hskip : processPeak (List.foldl processPeak [] xs)
      ⟨some lat, some lng, lab, num⟩ = List.foldl processPeak [] xs := by
    simp [processPeak, hnz, hval]
  rw [hskip]

theorem malformed_peaks_nonfatal_witness :
    buildPeakIndex
        ([⟨some 1, some 2, none, none⟩] ++
          (⟨some 200, some 5, none, none⟩ : RawPeak) :: [⟨some 3, some 4, none, none⟩]) =
      buildPeakIndex
        ([⟨some 1, some 2, none, none⟩] ++ [⟨some 3, some 4, none, none⟩]) :=
  malformed_peaks_nonfatal.2 [⟨some 1, some 2, none, none⟩]
    [⟨some 3, some 4, none, none⟩] 200 5 none none
    (by norm_num) (by norm_num [isValidCoordinate])

/-! ### C5: `collectLatLngs` flattens depth-first -/

theorem collectEntries_eq (l : List LL) (t : List Pt) :
    collectEntries l t = t ++ specLeafList l := by
  induction l, t using collectEntries.induct with
  | case1 t => simp [collectEntries, specLeafList]
  | case2 es rest t ih1 ih2 =>
    simp only [collectEntries, specLeafList]
    rw [ih2, ih1, List.append_assoc]
  | case3 p rest t ih =>
    simp only [collectEntries, specLeafList, ih, List.append_assoc,
      List.singleton_append]
  | case4 rest t ih => simp only [collectEntries, specLeafList, ih]

theorem specLeafList_length (l : List LL) :
    (specLeafList l).length = numLeafList l := by
  induction l using specLeafList.induct with
  | case1 => simp [specLeafList, numLeafList]
  | case2 es rest ih1 ih2 => simp [specLeafList, numLeafList, ih1, ih2]
  | case3 p rest ih => simp [specLeafList, numLeafList, ih, Nat.add_comm]
  | case4 rest ih => simp [specLeafList, numLeafList, ih]

theorem specLeafList_map_pt (ps : List Pt) :
    specLeafList (ps.map LL.pt) = ps := by
  induction ps with
  | nil => simp [specLeafList]
  | cons p rest ih => simp [specLeafList, ih]

/-- Claim C5: `collectLatLngs` returns the leaf GeoPoints of a nested array
in depth-first order (so its length is the total leaf count and relative
order is preserved, non-point non-array entries being dropped), and
applied to an already-flat list of points it is the identity, hence
idempotent.  (Input immutability holds by construction: the embedding is a
pure function of its argument.) -/
theorem collectLatLngs_depth_first (es : List LL) :
    collectLatLngs (LL.arr es) [] = specLeafList es
    ∧ (collectLatLngs (LL.arr es) []).length = numLeafList es
    ∧ collectLatLngs (LL.arr ((collectLatLngs (LL.arr es) []).map LL.pt)) []
        = collectLatLngs (LL.arr es) [] := by
  have h1 : collectLatLngs (LL.arr es) [] = specLeafList es := by
    simp [collectLatLngs, collectEntries_eq]
  refine ⟨h1, by rw [h1, specLeafList_length], ?_⟩
  rw [h1]
  simp [collectLatLngs, collectEntries_eq, specLeafList_map_pt]

/-! ### C7: viewport fitting (`zoomTrackToMax`) -/

/-- Claim C7: `zoomTrackToMax` is a no-op for an absent map or bounds, for
invalid bounds, and whenever the externally computed bounds zoom is not a
finite number (so a degenerate single-point bounds can never make it set a
`NaN`/`Infinity` zoom: every view it does set carries a finite zoom); when
the external zoom is finite it sets the bounds' center at that zoom clamped
into the map's finite configured `[minZoom, maxZoom]`. -/
theorem zoomTrackToMax_clamps (m : LMap) (b : LeafBounds) :
    zoomTrackToMax (some m) (some { b with validB := false }) = none
    ∧ zoomTrackToMax none (some b) = none
    ∧ zoomTrackToMax (some m) none = none
    ∧ (∀ c z, zoomTrackToMax (some m) (some b) = some (c, z) →
        c = b.center ∧ ∃ q : ℚ, z = JsNum.fin q)
    ∧ (∀ q : ℚ, m.boundsZoom b = JsNum.fin q → b.validB = true →
        zoomTrackToMax (some m) (some b) =
          some (b.center,
            JsNum.fin (specClampZoom q (finOf m.minZoom) (finOf m.maxZoom))))
    ∧ ∀ t mn mx : ℚ, mn ≤ mx →
        mn ≤ specClampZoom t (some mn) (some mx)
        ∧ specClampZoom t (some mn) (some mx) ≤ mx := by
  refine ⟨by simp [zoomTrackToMax], rfl, rfl, ?_, ?_, ?_⟩
  · intro c z h
    simp only [zoomTrackToMax] at h
    cases hv : b.validB
    · rw [hv] at h
      simp at h
    · rw [hv] at h
      simp only [Bool.not_true, Bool.false_eq_true, if_false] at h
      cases hz : m.boundsZoom b
      case fin q =>
        rw [hz] at h
        simp only [Option.some.injEq, Prod.mk.injEq] at h
        exact ⟨h.1.symm, _, h.2.symm⟩
      case nan => rw [hz] at h; exact absurd h (by simp)
      case posInf => rw [hz] at h; exact absurd h (by simp)
      case negInf => rw [hz] at h; exact absurd h (by simp)
  · intro q hq hv
    simp only [zoomTrackToMax]
    rw [hv, hq]
    simp only [Bool.not_true, Bool.false_eq_true, if_false, Option.some.injEq,
      Prod.mk.injEq, true_and]
    cases hmn : m.minZoom with
    | none =>
      cases hmx : m.maxZoom with
      | none => simp [specClampZoom, finOf]
      | some v => cases v <;> simp [specClampZoom, finOf]
    | some v =>
      cases v <;> cases hmx : m.maxZoom with
      | none => simp [specClampZoom, finOf]
      | some w => cases w <;> simp [specClampZoom, finOf]
  · intro t mn mx hle
    constructor
    · simp only [specClampZoom]
      exact le_min (le_max_right t mn) hle
    · simp only [specClampZoom]
      exact min_le_right _ mx

/-- Concrete map/bounds pair exercising `zoomTrackToMax`. -/
theorem zoomTrackToMax_clamps_witness :
    zoomTrackToMax
        (some ⟨fun _ => JsNum.fin 13, some (JsNum.fin 5), some (JsNum.fin 18)⟩)
        (some ⟨true, ⟨1, 2⟩⟩) =
      some (Pt.mk 1 2,
        JsNum.fin (specClampZoom 13 (finOf (some (JsNum.fin 5)))
          (finOf (some (JsNum.fin 18))))) :=
  (zoomTrackToMax_clamps
      ⟨fun _ => JsNum.fin 13, some (JsNum.fin 5), some (JsNum.fin 18)⟩
      ⟨true, ⟨1, 2⟩⟩).2.2.2.2.1 13 rfl rfl

/-! ### C4: `bearingBetween` range and degenerate cases -/

theorem jsMod_360_bounds (a : ℝ) (h : 0 < a) :
    0 ≤ jsMod a 360 ∧ jsMod a 360 < 360 := by
  have hdiv : 0 ≤ a / 360 := by positivity
  have htr : jsTrunc (a / 360) = ⌊a / 360⌋ := by simp [jsTrunc, hdiv]
  have hfl : (360 : ℝ) * ⌊a / 360⌋ ≤ a := by
    have := Int.floor_le (a / 360)
    nlinarith
  have hfu : a < 360 * ⌊a / 360⌋ + 360 := by
    have := Int.lt_floor_add_one (a / 360)
    nlinarith
  constructor
  · simp only [jsMod, htr]
    linarith
  · simp only [jsMod, htr]
    linarith

/-- Claim C4: for all points `a b`, `bearingBetween (some a) (some b)` lies
in `[0, 360)`; `bearingBetween (some a) (some a)` is exactly `0` (a defined
value, not an error); and an absent argument yields `0`. -/
theorem bearingBetween_range_and_degenerate :
    (∀ a b : Pt, 0 ≤ bearingBetween (some a) (some b)
        ∧ bearingBetween (some a) (some b) < 360)
    ∧ (∀ a : Pt, bearingBetween (some a) (some a) = 0)
    ∧ (∀ b : Option Pt, bearingBetween none b = 0)
    ∧ ∀ a : Option Pt, bearingBetween a none = 0 := by
  have hpi : (0 : ℝ) < Real.pi := Real.pi_pos
  refine ⟨fun a b => ?_, fun a => ?_, fun b => rfl, fun a => by cases a <;> rfl⟩
  · simp only [bearingBetween]
    set y := Real.sin (((b.lng : ℝ) - (a.lng : ℝ)) * (Real.pi / 180)) *
      Real.cos ((b.lat : ℝ) * (Real.pi / 180)) with hy
    set x := Real.cos ((a.lat : ℝ) * (Real.pi / 180)) *
        Real.sin ((b.lat : ℝ) * (Real.pi / 180)) -
      Real.sin ((a.lat : ℝ) * (Real.pi / 180)) *
        Real.cos ((b.lat : ℝ) * (Real.pi / 180)) *
        Real.cos (((b.lng : ℝ) - (a.lng : ℝ)) * (Real.pi / 180)) with hx
    have harg1 : jsAtan2 y x ≤ Real.pi := Complex.arg_le_pi _
    have harg2 : -Real.pi < jsAtan2 y x := Complex.neg_pi_lt_arg _
    have hscale : (0 : ℝ) < 180 / Real.pi := by positivity
    have hub : jsAtan2 y x * (180 / Real.pi) ≤ 180 := by
      have h1 := mul_le_mul_of_nonneg_right harg1 hscale.le
      have h2 : Real.pi * (180 / Real.pi) = 180 := by
        field_simp
      linarith
    have hlb : -180 < jsAtan2 y x * (180 / Real.pi) := by
      have h1 := mul_lt_mul_of_pos_right harg2 hscale
      have h2 : -Real.pi * (180 / Real.pi) = -180 := by
        field_simp
        ring
      linarith
    have hpos : (0 : ℝ) < jsAtan2 y x * (180 / Real.pi) + 360 := by linarith
    exact jsMod_360_bounds _ hpos
  · simp only [bearingBetween]
    have hzero : ((a.lng : ℝ) - (a.lng : ℝ)) * (Real.pi / 180) = 0 := by ring
    rw [hzero, Real.sin_zero, Real.cos_zero, zero_mul]
    have hx0 : Real.cos ((a.lat : ℝ) * (Real.pi / 180)) *
        Real.sin ((a.lat : ℝ) * (Real.pi / 180)) -
      Real.sin ((a.lat : ℝ) * (Real.pi / 180)) *
        Real.cos ((a.lat : ℝ) * (Real.pi / 180)) * 1 = 0 := by ring
    rw [hx0]
    have hz : jsAtan2 0 0 = 0 := by
      have h0 : (⟨0, 0⟩ : ℂ) = 0 := rfl
      simp only [jsAtan2, h0, Complex.arg_zero]
    rw [hz, zero_mul, zero_add]
    have h2 : jsTrunc ((1 : ℝ)) = 1 := by
      simp [jsTrunc]
    simp only [jsMod]
    norm_num [h2]

/-! ### Decimal-string lemmas: `coordKey` determines and is determined by
the sign and the rounded coordinate values -/

theorem digitCh_toNat (d : ℕ) (h : d < 10) : (digitCh d).toNat = 48 + d := by
  interval_cases d <;> rfl

theorem valLSD_natReprAux :
    ∀ (fuel m : ℕ), m ≤ fuel → valLSD (natReprAux fuel m) = m := by
  intro fuel
  induction fuel with
  | zero =>
    intro m hm
    have hm0 : m = 0 := by omega
    subst hm0
    rfl
  | succ fuel ih =>
    intro m hm
    match m with
    | 0 => rfl
    | n + 1 =>
      have hd : (n + 1) % 10 < 10 := Nat.mod_lt _ (by norm_num)
      have hdiv : (n + 1) / 10 ≤ fuel := by
        have := Nat.div_lt_self (Nat.succ_pos n) (by norm_num : 1 < 10)
        omega
      simp only [natReprAux, valLSD, digitCh_toNat _ hd, ih _ hdiv]
      omega

theorem natRepr_ne_nil (n : ℕ) : natRepr n ≠ [] := by
  by_cases h : n = 0
  · subst h
    simp [natRepr]
  · obtain ⟨m, rfl⟩ := Nat.exists_eq_succ_of_ne_zero h
    simp [natRepr, natReprAux]

theorem natRepr_inj {n m : ℕ} (h : natRepr n = natRepr m) : n = m := by
  have hv : ∀ k : ℕ, k ≠ 0 → valLSD ((natRepr k).reverse) = k := by
    intro k hk
    simp only [natRepr, if_neg hk, List.reverse_reverse]
    exact valLSD_natReprAux k k le_rfl
  have h0 : valLSD ((natRepr 0).reverse) = 0 := rfl
  by_cases hn : n = 0 <;> by_cases hm : m = 0
  · omega
  · exfalso
    subst hn
    have h2 := hv m hm
    rw [← h] at h2
    exact hm (by omega)
  · exfalso
    subst hm
    have h2 := hv n hn
    rw [h] at h2
    exact hn (by omega)
  · have h1 := hv n hn
    have h2 := hv m hm
    rw [h] at h1
    omega

theorem valMSD_reverse (l : List Char) : valMSD l.reverse = valLSD l := by
  induction l with
  | nil => rfl
  | cons c cs ih =>
    rw [valMSD, List.reverse_cons, List.foldl_append]
    simp only [List.foldl_cons, List.foldl_nil]
    rw [← valMSD, ih, valLSD]
    omega

theorem valMSD_natRepr (n : ℕ) : valMSD (natRepr n) = n := by
  by_cases h : n = 0
  · subst h
    rfl
  · conv_lhs => rw [natRepr, if_neg h]
    rw [valMSD_reverse]
    exact valLSD_natReprAux n n le_rfl

theorem valMSD_replicate_zero (k : ℕ) (l : List Char) :
    valMSD (List.replicate k '0' ++ l) = valMSD l := by
  induction k with
  | zero => simp
  | succ k ih =>
    have hsplit : List.replicate (k + 1) '0' ++ l =
        '0' :: (List.replicate k '0' ++ l) := by
      simp [List.replicate_succ]
    rw [hsplit, valMSD, List.foldl_cons]
    exact ih

theorem valMSD_frac6 (f : ℕ) : valMSD (frac6 f) = f := by
  rw [frac6, valMSD_replicate_zero, valMSD_natRepr]

theorem natReprAux_length :
    ∀ (fuel m k : ℕ), m < 10 ^ k → (natReprAux fuel m).length ≤ k := by
  intro fuel
  induction fuel with
  | zero =>
    intro m k _
    simp [natReprAux]
  | succ fuel ih =>
    intro m k hm
    match m with
    | 0 => simp [natReprAux]
    | n + 1 =>
      match k with
      | 0 => norm_num at hm
      | j + 1 =>
        have hdiv : (n + 1) / 10 < 10 ^ j := by
          rw [Nat.div_lt_iff_lt_mul (by norm_num : 0 < 10)]
          calc n + 1 < 10 ^ (j + 1) := hm
            _ = 10 ^ j * 10 := by ring
        simp only [natReprAux, List.length_cons]
        have := ih ((n + 1) / 10) j hdiv
        omega

theorem natRepr_length_le (f k : ℕ) (hf : f < 10 ^ k) (hk : 0 < k) :
    (natRepr f).length ≤ k := by
  by_cases h : f = 0
  · subst h
    simpa [natRepr] using hk
  · rw [natRepr, if_neg h, List.length_reverse]
    exact natReprAux_length f f k hf

theorem frac6_length (f : ℕ) (hf : f < 1000000) : (frac6 f).length = 6 := by
  have hpow : f < 10 ^ 6 := by
    calc f < 1000000 := hf
      _ = 10 ^ 6 := by norm_num
  have h6 : (natRepr f).length ≤ 6 := natRepr_length_le f 6 hpow (by norm_num)
  simp only [frac6, List.length_append, List.length_replicate]
  omega

theorem natReprAux_mem_toNat :
    ∀ (fuel m : ℕ) (c : Char), c ∈ natReprAux fuel m →
      48 ≤ c.toNat ∧ c.toNat ≤ 57 := by
  intro fuel
  induction fuel with
  | zero =>
    intro m c hc
    simp [natReprAux] at hc
  | succ fuel ih =>
    intro m c hc
    match m with
    | 0 => simp [natReprAux] at hc
    | n + 1 =>
      simp only [natReprAux, List.mem_cons] at hc
      rcases hc with rfl | hc
      · have hd : (n + 1) % 10 < 10 := Nat.mod_lt _ (by norm_num)
        rw [digitCh_toNat _ hd]
        omega
      · exact ih _ c hc

theorem natRepr_mem_toNat (n : ℕ) (c : Char) (hc : c ∈ natRepr n) :
    48 ≤ c.toNat ∧ c.toNat ≤ 57 := by
  by_cases h : n = 0
  · subst h
    have h0 : natRepr 0 = ['0'] := rfl
    rw [h0, List.mem_singleton] at hc
    subst hc
    exact ⟨by decide, by decide⟩
  · rw [natRepr, if_neg h, List.mem_reverse] at hc
    exact natReprAux_mem_toNat n n c hc

theorem frac6_mem_toNat (f : ℕ) (c : Char) (hc : c ∈ frac6 f) :
    48 ≤ c.toNat ∧ c.toNat ≤ 57 := by
  rw [frac6, List.mem_append] at hc
  rcases hc with hc | hc
  · rw [List.mem_replicate] at hc
    rw [hc.2]
    exact ⟨by decide, by decide⟩
  · exact natRepr_mem_toNat f c hc

theorem colon_not_mem_fixed6Data (q : ℚ) : ':' ∉ fixed6Data q := by
  intro hc
  simp only [fixed6Data, List.mem_append, List.mem_cons] at hc
  rcases hc with (hc | hc) | hc | hc
  · by_cases hq : q < 0
    · rw [if_pos hq] at hc
      simp at hc
    · rw [if_neg hq] at hc
      exact absurd hc (List.not_mem_nil _)
  · have := natRepr_mem_toNat _ _ hc
    have h58 : (':').toNat = 58 := rfl
    omega
  · exact absurd hc (by decide)
  · have := frac6_mem_toNat _ _ hc
    have h58 : (':').toNat = 58 := rfl
    omega

theorem split_rest (hi1 hi2 lo1 lo2 : ℕ) (hlo1 : lo1 < 1000000)
    (hlo2 : lo2 < 1000000)
    (h : natRepr hi1 ++ '.' :: frac6 lo1 = natRepr hi2 ++ '.' :: frac6 lo2) :
    hi1 = hi2 ∧ lo1 = lo2 := by
  have hlen : (natRepr hi1).length = (natRepr hi2).length := by
    have hl := congrArg List.length h
    simp only [List.length_append, List.length_cons] at hl
    rw [frac6_length lo1 hlo1, frac6_length lo2 hlo2] at hl
    omega
  obtain ⟨h1, h2⟩ := List.append_inj h hlen
  refine ⟨natRepr_inj h1, ?_⟩
  injection h2 with _ h3
  have v1 := valMSD_frac6 lo1
  have v2 := valMSD_frac6 lo2
  rw [h3] at v1
  omega

theorem fixed6Data_inj (q1 q2 : ℚ) (h : fixed6Data q1 = fixed6Data q2) :
    (q1 < 0 ↔ q2 < 0) ∧ round6abs q1 = round6abs q2 := by
  have hmod1 : round6abs q1 % 1000000 < 1000000 := Nat.mod_lt _ (by norm_num)
  have hmod2 : round6abs q2 % 1000000 < 1000000 := Nat.mod_lt _ (by norm_num)
  have hmix : ∀ r1 r2 : ℚ, r1 < 0 → ¬r2 < 0 → fixed6Data r1 ≠ fixed6Data r2 := by
    intro r1 r2 hr1 hr2 heq
    obtain ⟨c, cs, hc⟩ :=
      List.exists_cons_of_ne_nil (natRepr_ne_nil (round6abs r2 / 1000000))
    have he1 : fixed6Data r1 = '-' ::
        (natRepr (round6abs r1 / 1000000) ++
          '.' :: frac6 (round6abs r1 % 1000000)) := by
      rw [fixed6Data, if_pos hr1, List.singleton_append, List.cons_append]
    have he2 : fixed6Data r2 = c ::
        (cs ++ '.' :: frac6 (round6abs r2 % 1000000)) := by
      rw [fixed6Data, if_neg hr2, List.nil_append, hc, List.cons_append]
    rw [he1, he2] at heq
    injection heq with hch _
    have hcmem : c ∈ natRepr (round6abs r2 / 1000000) := by
      rw [hc]; exact List.mem_cons_self c cs
    have := natRepr_mem_toNat _ c hcmem
    have h45 : ('-').toNat = 45 := rfl
    rw [← hch] at this
    omega
  by_cases h1 : q1 < 0 <;> by_cases h2 : q2 < 0
  · rw [fixed6Data, fixed6Data, if_pos h1, if_pos h2,
      List.singleton_append, List.singleton_append, List.cons_append,
      List.cons_append] at h
    injection h with _ h'
    obtain ⟨ha, hb⟩ := split_rest _ _ _ _ hmod1 hmod2 h'
    refine ⟨by tauto, ?_⟩
    omega
  · exact absurd h (hmix q1 q2 h1 h2)
  · exact absurd h.symm (hmix q2 q1 h2 h1)
  · rw [fixed6Data, fixed6Data, if_neg h1, if_neg h2,
      List.nil_append, List.nil_append] at h
    obtain ⟨ha, hb⟩ := split_rest _ _ _ _ hmod1 hmod2 h
    refine ⟨by tauto, ?_⟩
    omega

theorem colon_split :
    ∀ (a1 b1 a2 b2 : List Char), ':' ∉ a1 → ':' ∉ a2 →
      a1 ++ ':' :: b1 = a2 ++ ':' :: b2 → a1 = a2 ∧ b1 = b2 := by
  intro a1
  induction a1 with
  | nil =>
    intro b1 a2 b2 _ h2 h
    match a2 with
    | [] =>
      rw [List.nil_append, List.nil_append] at h
      injection h with _ h'
      exact ⟨rfl, h'⟩
    | c :: cs =>
      rw [List.nil_append, List.cons_append] at h
      injection h with hc _
      exfalso
      apply h2
      rw [hc]
      exact List.mem_cons_self c cs
  | cons c cs ih =>
    intro b1 a2 b2 h1 h2 h
    match a2 with
    | [] =>
      rw [List.cons_append, List.nil_append] at h
      injection h with hc _
      exfalso
      apply h1
      rw [← hc]
      exact List.mem_cons_self c cs
    | d :: ds =>
      rw [List.cons_append, List.cons_append] at h
      injection h with hcd h'
      have h1' : ':' ∉ cs := fun hh => h1 (List.mem_cons_of_mem c hh)
      have h2' : ':' ∉ ds := fun hh => h2 (List.mem_cons_of_mem d hh)
      obtain ⟨ha, hb⟩ := ih b1 ds b2 h1' h2' h'
      exact ⟨by rw [hcd, ha], hb⟩

theorem coordKey_data (lat lng : ℚ) :
    (coordKey lat lng).data = fixed6Data lat ++ ':' :: fixed6Data lng := by
  have h1 : (coordKey lat lng).data =
      (fixed6 lat).data ++ (":").data ++ (fixed6 lng).data := by
    rw [coordKey, String.data_append, String.data_append]
  rw [h1]
  have h2 : (":").data = [':'] := rfl
  have h3 : (fixed6 lat).data = fixed6Data lat := rfl
  have h4 : (fixed6 lng).data = fixed6Data lng := rfl
  rw [h2, h3, h4, List.append_assoc, List.singleton_append]

theorem coordKey_inj (lat1 lng1 lat2 lng2 : ℚ)
    (h : coordKey lat1 lng1 = coordKey lat2 lng2) :
    fixed6Data lat1 = fixed6Data lat2 ∧ fixed6Data lng1 = fixed6Data lng2 := by
  have hd := congrArg String.data h
  rw [coordKey_data, coordKey_data] at hd
  exact colon_split _ _ _ _ (colon_not_mem_fixed6Data lat1)
    (colon_not_mem_fixed6Data lat2) hd

theorem round6abs_5dec (a : ℤ) :
    round6abs ((a : ℚ) / 100000) = 10 * a.natAbs := by
  have h1 : |(a : ℚ)| = ((a.natAbs : ℤ) : ℚ) := by
    rw [← Int.cast_abs, Int.abs_eq_natAbs]
  have habs : |(a : ℚ) / 100000| = ((a.natAbs : ℤ) : ℚ) / 100000 := by
    rw [abs_div, abs_of_pos (by norm_num : (0:ℚ) < 100000), h1]
  have hmul : ((a.natAbs : ℤ) : ℚ) / 100000 * 1000000 + 1 / 2
      = ((10 * (a.natAbs : ℤ) : ℤ) : ℚ) + 1 / 2 := by
    push_cast
    ring
  rw [round6abs, habs, hmul, Int.floor_int_add]
  have hhalf : ⌊(1 : ℚ) / 2⌋ = 0 := by norm_num
  rw [hhalf]
  omega

theorem sign_5dec (a : ℤ) : ((a : ℚ) / 100000 < 0) ↔ a < 0 := by
  rw [div_lt_iff₀ (by norm_num : (0:ℚ) < 100000), zero_mul]
  exact_mod_cast Iff.rfl

theorem fixed6Data_5dec_inj (a b : ℤ)
    (h : fixed6Data ((a : ℚ) / 100000) = fixed6Data ((b : ℚ) / 100000)) :
    a = b := by
  obtain ⟨hs, hr⟩ := fixed6Data_inj _ _ h
  rw [round6abs_5dec, round6abs_5dec] at hr
  rw [sign_5dec, sign_5dec] at hs
  omega

theorem fixed6_congr (q1 q2 : ℚ) (h1 : ¬q1 < 0) (h2 : ¬q2 < 0)
    (hr : round6abs q1 = round6abs q2) : fixed6 q1 = fixed6 q2 := by
  rw [fixed6, fixed6, fixed6Data, fixed6Data, if_neg h1, if_neg h2, hr]

/-! ### C1 and C3: peak deduplication by 6-decimal coordinate key -/

theorem round6abs_eval (q : ℚ) (n : ℕ) (h0 : 0 ≤ q)
    (hl : (n : ℚ) ≤ q * 1000000 + 1 / 2) (hu : q * 1000000 + 1 / 2 < n + 1) :
    round6abs q = n := by
  rw [round6abs, abs_of_nonneg h0]
  have hfl : ⌊q * 1000000 + 1 / 2⌋ = (n : ℤ) := by
    rw [Int.floor_eq_iff]
    constructor
    · exact_mod_cast hl
    · exact_mod_cast hu
  rw [hfl]
  omega

theorem buildPeakIndex_pair (lat1 lng1 lat2 lng2 : ℚ) (lab1 lab2 : Option String)
    (n1 n2 : Option ℤ)
    (h1 : ¬(lat1 = 0 ∨ lng1 = 0)) (h2 : ¬(lat2 = 0 ∨ lng2 = 0))
    (v1 : isValidCoordinate lat1 lng1 = true)
    (v2 : isValidCoordinate lat2 lng2 = true) :
    buildPeakIndex [⟨some lat1, some lng1, lab1, n1⟩,
        ⟨some lat2, some lng2, lab2, n2⟩]
      = if coordKey lat1 lng1 = coordKey lat2 lng2 then
          [(coordKey lat1 lng1, ⟨lat1, lng1, lab1, [n1.getD 0, n2.getD 0], 2⟩)]
        else
          [(coordKey lat1 lng1, ⟨lat1, lng1, lab1, [n1.getD 0], 1⟩),
            (coordKey lat2 lng2, ⟨lat2, lng2, lab2, [n2.getD 0], 1⟩)] := by
  have hstep : buildPeakIndex [⟨some lat1, some lng1, lab1, n1⟩,
      ⟨some lat2, some lng2, lab2, n2⟩] =
      processPeak (processPeak [] ⟨some lat1, some lng1, lab1, n1⟩)
        ⟨some lat2, some lng2, lab2, n2⟩ := rfl
  have hp1 : processPeak [] ⟨some lat1, some lng1, lab1, n1⟩ =
      [(coordKey lat1 lng1, ⟨lat1, lng1, lab1, [n1.getD 0], 1⟩)] := by
    simp only [processPeak, if_neg h1, v1, if_true, updateIndex]
  rw [hstep, hp1]
  simp only [processPeak, if_neg h2, v2, if_true, updateIndex]
  by_cases hk : coordKey lat1 lng1 = coordKey lat2 lng2
  · rw [if_pos hk, if_pos hk]
    simp
  · rw [if_neg hk, if_neg hk]
/-- Claim C1: two raw peaks that both pass the falsy and range checks merge
into exactly one marker, with `numbers.length = 2` and `occurrenceCount = 2`,
precisely when their 6-decimal coordinate keys coincide (which covers
coordinates differing only at the 7th decimal, as the witness shows); and
two peaks whose coordinates are distinct multiples of `10⁻⁵` — i.e. that
differ at the 5th decimal or before — always produce two distinct
markers. -/
theorem peak_dedup_rounded_key
    (lat1 lng1 lat2 lng2 : ℚ) (lab1 lab2 : Option String) (n1 n2 : Option ℤ)
    (hz1 : lat1 ≠ 0) (hz2 : lng1 ≠ 0) (hz3 : lat2 ≠ 0) (hz4 : lng2 ≠ 0)
    (v1 : isValidCoordinate lat1 lng1 = true)
    (v2 : isValidCoordinate lat2 lng2 = true) :
    (coordKey lat1 lng1 = coordKey lat2 lng2 →
      ∃ mk : PeakMarker,
        addPeakMarkers (some [⟨some lat1, some lng1, lab1, n1⟩,
            ⟨some lat2, some lng2, lab2, n2⟩]) = [mk]
        ∧ mk.key = coordKey lat1 lng1
        ∧ mk.numbers.length = 2
        ∧ mk.occurrenceCount = 2)
    ∧ ((∃ a : ℤ, lat1 = (a : ℚ) / 100000) → (∃ a : ℤ, lng1 = (a : ℚ) / 100000) →
        (∃ a : ℤ, lat2 = (a : ℚ) / 100000) → (∃ a : ℤ, lng2 = (a : ℚ) / 100000) →
        (lat1, lng1) ≠ (lat2, lng2) →
        (addPeakMarkers (some [⟨some lat1, some lng1, lab1, n1⟩,
            ⟨some lat2, some lng2, lab2, n2⟩])).length = 2) := by
  have h1 : ¬(lat1 = 0 ∨ lng1 = 0) := by tauto
  have h2 : ¬(lat2 = 0 ∨ lng2 = 0) := by tauto
  have hpair := buildPeakIndex_pair lat1 lng1 lat2 lng2 lab1 lab2 n1 n2 h1 h2 v1 v2
  constructor
  · intro hk
    rw [if_pos hk] at hpair
    refine ⟨⟨coordKey lat1 lng1, lat1, lng1, 2, [n1.getD 0, n2.getD 0], 2,
      popupOf lab1⟩, ?_, rfl, rfl, rfl⟩
    simp [addPeakMarkers, hpair]
  · intro ha1 ha2 ha3 ha4 hne
    have hk : ¬coordKey lat1 lng1 = coordKey lat2 lng2 := by
      intro hkeq
      obtain ⟨b1, rfl⟩ := ha1
      obtain ⟨b2, rfl⟩ := ha2
      obtain ⟨b3, rfl⟩ := ha3
      obtain ⟨b4, rfl⟩ := ha4
      obtain ⟨hla, hlo⟩ := coordKey_inj _ _ _ _ hkeq
      have e1 := fixed6Data_5dec_inj _ _ hla
      have e2 := fixed6Data_5dec_inj _ _ hlo
      rw [e1, e2] at hne
      exact hne rfl
    rw [if_neg hk] at hpair
    simp [addPeakMarkers, hpair]

theorem peak_dedup_rounded_key_witness :
    ∃ mk : PeakMarker,
      addPeakMarkers (some [⟨some (474769 / 10000), some (111302 / 10000), none, some 1⟩,
          ⟨some (474769001 / 10000000), some (111302 / 10000), none, some 7⟩]) = [mk]
      ∧ mk.key = coordKey (474769 / 10000) (111302 / 10000)
      ∧ mk.numbers.length = 2
      ∧ mk.occurrenceCount = 2 := by
  have r1 : round6abs (474769 / 10000 : ℚ) = 47476900 :=
    round6abs_eval _ _ (by norm_num) (by norm_num) (by norm_num)
  have r2 : round6abs (474769001 / 10000000 : ℚ) = 47476900 :=
    round6abs_eval _ _ (by norm_num) (by norm_num) (by norm_num)
  have hkey : coordKey (474769 / 10000 : ℚ) (111302 / 10000)
      = coordKey (474769001 / 10000000 : ℚ) (111302 / 10000) := by
    rw [coordKey, coordKey,
      fixed6_congr _ _ (by norm_num) (by norm_num) (r1.trans r2.symm)]
  exact (peak_dedup_rounded_key _ _ _ _ none none (some 1) (some 7)
    (by norm_num) (by norm_num) (by norm_num) (by norm_num)
    (by norm_num [isValidCoordinate]) (by norm_num [isValidCoordinate])).1 hkey

/-- Claim C3: when raw peaks merge on one coordinate key, the marker's
label (and bound popup) is the first entry's label — later labels are
ignored — while every entry's `number` (defaulting to `0`) is appended to
`numbers` in input order; in particular the two `Fricken` entries of the
spec's scenario yield one marker at key `"47.476900:11.130200"` with
`numbers = [1, 7]`, `occurrenceCount = 2` and label `"Fricken"`. -/
theorem peak_label_first_wins :
    (∀ (lat1 lng1 lat2 lng2 : ℚ) (lab1 lab2 : Option String) (n1 n2 : Option ℤ),
        lat1 ≠ 0 → lng1 ≠ 0 → lat2 ≠ 0 → lng2 ≠ 0 →
        isValidCoordinate lat1 lng1 = true →
        isValidCoordinate lat2 lng2 = true →
        coordKey lat1 lng1 = coordKey lat2 lng2 →
        addPeakMarkers (some [⟨some lat1, some lng1, lab1, n1⟩,
            ⟨some lat2, some lng2, lab2, n2⟩]) =
          [⟨coordKey lat1 lng1, lat1, lng1, 2, [n1.getD 0, n2.getD 0], 2,
            popupOf lab1⟩])
    ∧ addPeakMarkers
        (some [⟨some (474769 / 10000), some (111302 / 10000),
            some ("Fricken"), some 1⟩,
          ⟨some (474769 / 10000), some (111302 / 10000),
            some ("Fricken2"), some 7⟩]) =
      [⟨("47.476900:11.130200"), 474769 / 10000, 111302 / 10000, 2, [1, 7], 2,
        some ("Fricken")⟩] := by
  have hgen : ∀ (lat1 lng1 lat2 lng2 : ℚ) (lab1 lab2 : Option String)
      (n1 n2 : Option ℤ),
      lat1 ≠ 0 → lng1 ≠ 0 → lat2 ≠ 0 → lng2 ≠ 0 →
      isValidCoordinate lat1 lng1 = true →
      isValidCoordinate lat2 lng2 = true →
      coordKey lat1 lng1 = coordKey lat2 lng2 →
      addPeakMarkers (some [⟨some lat1, some lng1, lab1, n1⟩,
          ⟨some lat2, some lng2, lab2, n2⟩]) =
        [⟨coordKey lat1 lng1, lat1, lng1, 2, [n1.getD 0, n2.getD 0], 2,
          popupOf lab1⟩] := by
    intro lat1 lng1 lat2 lng2 lab1 lab2 n1 n2 hz1 hz2 hz3 hz4 v1 v2 hk
    have h1 : ¬(lat1 = 0 ∨ lng1 = 0) := by tauto
    have h2 : ¬(lat2 = 0 ∨ lng2 = 0) := by tauto
    have hpair := buildPeakIndex_pair lat1 lng1 lat2 lng2 lab1 lab2 n1 n2
      h1 h2 v1 v2
    rw [if_pos hk] at hpair
    simp [addPeakMarkers, hpair]
  refine ⟨hgen, ?_⟩
  have r1 : round6abs (474769 / 10000 : ℚ) = 47476900 :=
    round6abs_eval _ _ (by norm_num) (by norm_num) (by norm_num)
  have r2 : round6abs (111302 / 10000 : ℚ) = 11130200 :=
    round6abs_eval _ _ (by norm_num) (by norm_num) (by norm_num)
  have f1 : fixed6 (474769 / 10000 : ℚ) = ("47.476900") := by
    rw [fixed6, fixed6Data, if_neg (by norm_num), r1]
    decide
  have f2 : fixed6 (111302 / 10000 : ℚ) = ("11.130200") := by
    rw [fixed6, fixed6Data, if_neg (by norm_num), r2]
    decide
  have hkey : coordKey (474769 / 10000 : ℚ) (111302 / 10000)
      = ("47.476900:11.130200") := by
    rw [coordKey, f1, f2]
    decide
  have happ := hgen (474769 / 10000) (111302 / 10000) (474769 / 10000)
    (111302 / 10000) (some ("Fricken")) (some ("Fricken2")) (some 1) (some 7)
    (by norm_num) (by norm_num) (by norm_num) (by norm_num)
    (by norm_num [isValidCoordinate]) (by norm_num [isValidCoordinate]) rfl
  rw [happ, hkey]
  rfl

theorem peak_label_first_wins_witness :
    addPeakMarkers (some [⟨some 1, some 2, some ("A"), some 3⟩,
        ⟨some 1, some 2, some ("B"), some 4⟩]) =
      [⟨coordKey 1 2, 1, 2, 2, [3, 4], 2, popupOf (some ("A"))⟩] :=
  peak_label_first_wins.1 1 2 1 2 (some ("A")) (some ("B")) (some 3) (some 4)
    (by norm_num) (by norm_num) (by norm_num) (by norm_num)
    (by norm_num [isValidCoordinate]) (by norm_num [isValidCoordinate]) rfl

/-! ### C6: track sampling -/

theorem filterIdx_append (r : ℕ) :
    ∀ (xs ys : List Pt) (i : ℕ),
      filterIdx r i (xs ++ ys) = filterIdx r i xs ++ filterIdx r (i + xs.length) ys := by
  intro xs
  induction xs with
  | nil => intro ys i; simp [filterIdx]
  | cons p rest ih =>
    intro ys i
    rw [List.cons_append, filterIdx, filterIdx]
    by_cases hi : i % r = 0
    · rw [if_pos hi, if_pos hi, ih, List.cons_append, List.length_cons]
      ring_nf
    · rw [if_neg hi, if_neg hi, ih, List.length_cons]
      ring_nf

theorem filterIdx_sublist (r : ℕ) :
    ∀ (l : List Pt) (i : ℕ), (filterIdx r i l).Sublist l := by
  intro l
  induction l with
  | nil => intro i; simp [filterIdx]
  | cons p rest ih =>
    intro i
    rw [filterIdx]
    by_cases hi : i % r = 0
    · rw [if_pos hi]
      exact List.Sublist.cons₂ p (ih (i + 1))
    · rw [if_neg hi]
      exact List.Sublist.cons p (ih (i + 1))

theorem filterIdx_nil_of_phase (r : ℕ) :
    ∀ (l : List Pt) (i : ℕ), 0 < i % r → i % r + l.length ≤ r →
      filterIdx r i l = [] := by
  intro l
  induction l with
  | nil => intro i _ _; rfl
  | cons p rest ih =>
    intro i hpos hle
    rw [List.length_cons] at hle
    have hr2 : 2 ≤ r := by omega
    rw [filterIdx, if_neg (by omega)]
    cases rest with
    | nil => rfl
    | cons q qs =>
      rw [List.length_cons] at hle
      have hlt : i % r + 1 < r := by omega
      have hmod : (i + 1) % r = i % r + 1 := by
        rw [Nat.add_mod]
        have h1 : 1 % r = 1 := Nat.mod_eq_of_lt (by omega)
        rw [h1]
        exact Nat.mod_eq_of_lt hlt
      refine ih (i + 1) (by omega) ?_
      rw [hmod, List.length_cons]
      omega

theorem filterIdx_length_le_one (r : ℕ) (hr : 2 ≤ r) :
    ∀ (l : List Pt) (i : ℕ), l.length ≤ r → (filterIdx r i l).length ≤ 1 := by
  intro l
  induction l with
  | nil => intro i _; simp [filterIdx]
  | cons p rest ih =>
    intro i hlen
    rw [List.length_cons] at hlen
    rw [filterIdx]
    by_cases hi : i % r = 0
    · rw [if_pos hi]
      have hrest : filterIdx r (i + 1) rest = [] := by
        cases rest with
        | nil => rfl
        | cons q qs =>
          have h1 : 1 % r = 1 := Nat.mod_eq_of_lt (by omega)
          have hmod : (i + 1) % r = 1 := by
            rw [Nat.add_mod, hi, h1]
            simpa using h1
          refine filterIdx_nil_of_phase r (q :: qs) (i + 1) (by omega) ?_
          rw [hmod, List.length_cons]
          rw [List.length_cons] at hlen
          omega
      rw [hrest]
      simp
    · rw [if_neg hi]
      exact ih (i + 1) (by omega)

theorem filterIdx_length_le (r : ℕ) (hr : 2 ≤ r) :
    ∀ (n : ℕ) (l : List Pt) (i : ℕ), l.length ≤ n * r →
      (filterIdx r i l).length ≤ n := by
  intro n
  induction n with
  | zero =>
    intro l i hlen
    have hnil : l = [] := List.length_eq_zero.mp (by omega)
    subst hnil
    simp [filterIdx]
  | succ n ih =>
    intro l i hlen
    by_cases hsmall : l.length ≤ r
    · have := filterIdx_length_le_one r hr l i hsmall
      omega
    · have hsplit : l = l.take r ++ l.drop r := (List.take_append_drop r l).symm
      have htl : (l.take r).length = r := by
        rw [List.length_take]
        omega
      have hkey : filterIdx r i l =
          filterIdx r i (l.take r) ++ filterIdx r (i + r) (l.drop r) := by
        conv_lhs => rw [hsplit]
        rw [filterIdx_append, htl]
      rw [hkey, List.length_append]
      have hmul : (n + 1) * r = n * r + r := by ring
      have h1 := filterIdx_length_le_one r hr (l.take r) i (by omega)
      have h2 := ih (l.drop r) (i + r) (by rw [List.length_drop]; omega)
      omega

theorem sampleTrackPoints_getLast (pts : List Pt) :
    (sampleTrackPoints pts).getLast? = pts.getLast? := by
  cases hl : pts.getLast? with
  | none =>
    have hnil : pts = [] := List.getLast?_eq_none_iff.mp hl
    subst hnil
    rfl
  | some last =>
    simp only [sampleTrackPoints, hl]
    by_cases hc : (filterIdx (if pts.length > 1000 then max 5 (pts.length / 200)
        else 5) 0 pts).getLast? = some last
    · rw [if_pos hc, hc]
    · rw [if_neg hc, List.getLast?_concat]

theorem sampleTrackPoints_sublist (pts : List Pt) :
    (sampleTrackPoints pts).Sublist pts := by
  cases hl : pts.getLast? with
  | none =>
    simp only [sampleTrackPoints, hl]
    exact filterIdx_sublist _ pts 0
  | some last =>
    simp only [sampleTrackPoints, hl]
    set rate := if pts.length > 1000 then max 5 (pts.length / 200) else 5 with hrate
    by_cases hc : (filterIdx rate 0 pts).getLast? = some last
    · rw [if_pos hc]
      exact filterIdx_sublist _ pts 0
    · rw [if_neg hc]
      have hne : pts ≠ [] := by
        intro h
        rw [h] at hl
        simp at hl
      have hlast : pts.getLast hne = last := by
        have := List.getLast?_eq_getLast pts hne
        rw [hl] at this
        exact (Option.some.injEq _ _ ▸ this).symm
      have hdec : pts.dropLast ++ [last] = pts := by
        rw [← hlast]
        exact List.dropLast_append_getLast hne
      have hfsplit : filterIdx rate 0 pts =
          filterIdx rate 0 pts.dropLast ++
            filterIdx rate (0 + pts.dropLast.length) [last] := by
        conv_lhs => rw [← hdec]
        rw [filterIdx_append]
      have hcase : filterIdx rate (0 + pts.dropLast.length) [last] =
          if (0 + pts.dropLast.length) % rate = 0 then [last] else [] := by
        by_cases h0 : (0 + pts.dropLast.length) % rate = 0 <;>
          simp [filterIdx, h0]
      by_cases h0 : (0 + pts.dropLast.length) % rate = 0
      · exfalso
        apply hc
        rw [hfsplit, hcase, if_pos h0, List.getLast?_concat]
      · have hfd : filterIdx rate 0 pts = filterIdx rate 0 pts.dropLast := by
          rw [hfsplit, hcase, if_neg h0, List.append_nil]
        rw [hfd]
        have hsub := (filterIdx_sublist rate pts.dropLast 0).append
          (List.Sublist.refl [last])
        rw [hdec] at hsub
        exact hsub

theorem sampleTrackPoints_head (p : Pt) (rest : List Pt) :
    ∃ tail, sampleTrackPoints (p :: rest) = p :: tail := by
  cases hl : (p :: rest).getLast? with
  | none =>
    simp only [sampleTrackPoints, hl]
    exact ⟨_, by rw [filterIdx, if_pos (Nat.zero_mod _)]⟩
  | some last =>
    simp only [sampleTrackPoints, hl]
    set rate := if (p :: rest).length > 1000 then max 5 ((p :: rest).length / 200)
      else 5 with hrate
    have hf : filterIdx rate 0 (p :: rest) = p :: filterIdx rate 1 rest := by
      rw [filterIdx, if_pos (Nat.zero_mod rate)]
    rw [hf]
    by_cases hc : (p :: filterIdx rate 1 rest).getLast? = some last
    · rw [if_pos hc]
      exact ⟨_, rfl⟩
    · rw [if_neg hc]
      exact ⟨filterIdx rate 1 rest ++ [last], List.cons_append _ _ _⟩

theorem sampleTrackPoints_length_bound (pts : List Pt) (h : 1000 < pts.length) :
    (sampleTrackPoints pts).length ≤ 241 := by
  have h5 : 5 ≤ pts.length / 200 := by omega
  have hrate : (if pts.length > 1000 then max 5 (pts.length / 200) else 5) =
      pts.length / 200 := by
    rw [if_pos h, Nat.max_eq_right h5]
  have hr2 : 2 ≤ pts.length / 200 := by omega
  have hbound : pts.length ≤ 240 * (pts.length / 200) := by
    have := Nat.div_add_mod pts.length 200
    omega
  have hflen := filterIdx_length_le (pts.length / 200) hr2 240 pts 0 hbound
  cases hl : pts.getLast? with
  | none =>
    simp only [sampleTrackPoints, hl, hrate]
    omega
  | some last =>
    simp only [sampleTrackPoints, hl, hrate]
    by_cases hc : (filterIdx (pts.length / 200) 0 pts).getLast? = some last
    · rw [if_pos hc]
      omega
    · rw [if_neg hc, List.length_append, List.length_singleton]
      omega

/-- Claim C6 (amended): the sampling step of `addDirectionArrows` always
applies its stride (5, raised to `⌊n/200⌋` for tracks over 1000 points, so
the output stays near 200 — at most 241 — points for very long tracks), and
in every case the sampled sequence ends with exactly the final point of the
input, even when `(count - 1)` is not a multiple of the stride. -/
theorem sampling_keeps_last_and_bound (pts : List Pt) :
    (sampleTrackPoints pts).getLast? = pts.getLast?
    ∧ (1000 < pts.length → (sampleTrackPoints pts).length ≤ 241) :=
  ⟨sampleTrackPoints_getLast pts, fun h => sampleTrackPoints_length_bound pts h⟩

theorem sampling_keeps_last_and_bound_witness :
    (sampleTrackPoints (List.replicate 1001 (⟨0, 0⟩ : Pt))).length ≤ 241
    ∧ (sampleTrackPoints (List.replicate 1001 (⟨0, 0⟩ : Pt))).getLast?
      = (List.replicate 1001 (⟨0, 0⟩ : Pt)).getLast? :=
  ⟨(sampling_keeps_last_and_bound _).2 (by rw [List.length_replicate]; omega),
    (sampling_keeps_last_and_bound _).1⟩

/-- Claim C6 is refuted as stated: a 6-point track is far below any
plausible "threshold" (both the explicit 1000-point threshold in the code
and the spec's ~200 target), yet sampling does not return it unchanged —
the stride-5 filter always runs, keeping only indices 0 and 5. -/
theorem sampling_not_identity_below_threshold :
    ((([⟨0, 0⟩, ⟨1, 0⟩, ⟨2, 0⟩, ⟨3, 0⟩, ⟨4, 0⟩, ⟨5, 0⟩]) : List Pt).length ≤ 1000)
    ∧ sampleTrackPoints ([⟨0, 0⟩, ⟨1, 0⟩, ⟨2, 0⟩, ⟨3, 0⟩, ⟨4, 0⟩, ⟨5, 0⟩])
      ≠ ([⟨0, 0⟩, ⟨1, 0⟩, ⟨2, 0⟩, ⟨3, 0⟩, ⟨4, 0⟩, ⟨5, 0⟩] : List Pt) := by
  refine ⟨by norm_num, fun h => ?_⟩
  have hs : sampleTrackPoints ([⟨0, 0⟩, ⟨1, 0⟩, ⟨2, 0⟩, ⟨3, 0⟩, ⟨4, 0⟩, ⟨5, 0⟩] :
      List Pt) = [⟨0, 0⟩, ⟨5, 0⟩] := by
    simp [sampleTrackPoints, filterIdx, List.getLast?_cons_cons,
      List.getLast?_singleton]
  rw [hs] at h
  have hlen := congrArg List.length h
  simp at hlen

/-! ### C2: direction-arrow placement on a straight track -/

theorem nat_eq_of_lt_iff {a b : ℕ} (h : ∀ k, k < a ↔ k < b) : a = b := by
  rcases lt_trichotomy a b with hl | he | hg
  · have := (h a).mpr hl
    omega
  · exact he
  · have := (h b).mp hg
    omega

theorem numTargets_iff (next limit : ℚ) (k : ℕ) :
    k < numTargets next limit ↔ next + 400 * k ≤ limit := by
  rw [numTargets]
  by_cases h : next ≤ limit
  · rw [if_pos h, Int.lt_toNat, Int.lt_add_one_iff, Int.le_floor,
      le_div_iff₀ (by norm_num : (0:ℚ) < 400)]
    constructor
    · intro hle
      push_cast at hle ⊢
      linarith
    · intro hle
      push_cast at hle ⊢
      linarith
  · rw [if_neg h]
    push_neg at h
    simp only [Nat.not_lt_zero, false_iff, not_le]
    have h0 : (0:ℚ) ≤ 400 * k := by positivity
    linarith

theorem numTargets_zero (next limit : ℚ) (h : limit < next) :
    numTargets next limit = 0 := by
  rw [numTargets, if_neg (by linarith)]

theorem numTargets_exit (next limit : ℚ) :
    limit < next + 400 * numTargets next limit := by
  have := (numTargets_iff next limit (numTargets next limit)).not.mp (by omega)
  linarith [not_le.mp this]

theorem arrowWhile_eq (prev cur : Pt) (seg travelled : ℚ) :
    ∀ (n : ℕ) (next : ℚ), numTargets next (travelled + seg) = n →
      arrowWhile prev cur seg travelled next =
        ((List.range n).map fun k : ℕ =>
            mkArrowAt prev cur seg travelled (next + 400 * (k : ℚ)),
          next + 400 * n) := by
  intro n
  induction n with
  | zero =>
    intro next hn
    have hcond : ¬travelled + seg ≥ next := by
      intro hge
      have := (numTargets_iff next (travelled + seg) 0).mpr
        (by push_cast; linarith)
      omega
    rw [arrowWhile, dif_neg hcond]
    simp
  | succ n ih =>
    intro next hn
    have hcond : travelled + seg ≥ next := by
      by_contra hc
      push_neg at hc
      rw [numTargets_zero next _ hc] at hn
      omega
    have hshift : numTargets (next + 400) (travelled + seg) = n := by
      apply nat_eq_of_lt_iff
      intro k
      rw [numTargets_iff]
      have hk1 : k < n ↔ k + 1 < n + 1 := by omega
      rw [hk1, ← hn, numTargets_iff]
      constructor
      · intro hle
        push_cast
        linarith
      · intro hle
        push_cast at hle
        linarith
    rw [arrowWhile, dif_pos hcond, ih (next + 400) hshift]
    have hmap : ((List.range n).map fun k : ℕ =>
        mkArrowAt prev cur seg travelled (next + 400 + 400 * (k : ℚ))) =
        (List.range n).map
          ((fun k : ℕ =>
              mkArrowAt prev cur seg travelled (next + 400 * (k : ℚ))) ∘
            Nat.succ) := by
      apply List.map_congr_left
      intro k _
      simp only [Function.comp]
      congr 1
      push_cast
      ring
    rw [Prod.mk.injEq]
    constructor
    · rw [List.range_succ_eq_map, List.map_cons, List.map_map, hmap]
      congr 1
      rw [mkArrowAt, mkArrowAt]
      congr 2 <;> norm_num
    · push_cast
      ring

theorem chain_le_getLastD :
    ∀ (l : List Pt) (x : Pt),
      List.Chain' (fun a b : Pt => a.lat ≤ b.lat) (x :: l) →
      x.lat ≤ (l.getLastD x).lat := by
  intro l
  induction l with
  | nil => intro x _; simp [List.getLastD]
  | cons y ys ih =>
    intro x hch
    obtain ⟨hxy, hch'⟩ := List.chain'_cons.mp hch
    rw [List.getLastD_cons]
    exact le_trans hxy (ih y hch')

theorem arrowLoop_straight (c lat0 : ℚ) :
    ∀ (qs : List Pt) (prev : Pt) (next : ℚ),
      prev.lng = c → (∀ p ∈ qs, p.lng = c) →
      List.Chain' (fun a b : Pt => a.lat ≤ b.lat) (prev :: qs) →
      prev.lat - lat0 < next →
      (arrowLoop straightDist prev qs (prev.lat - lat0) next).length
          = numTargets next ((qs.getLastD prev).lat - lat0)
      ∧ (arrowLoop straightDist prev qs (prev.lat - lat0) next).map
            ArrowMarker.lat
          = (List.range
              (arrowLoop straightDist prev qs (prev.lat - lat0) next).length).map
              (fun i : ℕ => lat0 + (next + 400 * (i : ℚ)))
      ∧ (∀ mk ∈ arrowLoop straightDist prev qs (prev.lat - lat0) next,
          mk.lng = c)
      ∧ ∀ mk ∈ arrowLoop straightDist prev qs (prev.lat - lat0) next,
          (mk.prev, mk.cur) ∈ (prev :: qs).zip qs := by
  intro qs
  induction qs with
  | nil =>
    intro prev next hpl hql hch hinv
    refine ⟨?_, ?_, ?_, ?_⟩
    · rw [arrowLoop]
      simp [List.getLastD, numTargets_zero _ _ hinv]
    · rw [arrowLoop]
      simp
    · intro mk hmk
      rw [arrowLoop] at hmk
      simp at hmk
    · intro mk hmk
      rw [arrowLoop] at hmk
      simp at hmk
  | cons cur tail ih =>
    intro prev next hpl hql hch hinv
    obtain ⟨hpc, hch2⟩ := List.chain'_cons.mp hch
    have hcc : cur.lng = c := hql cur (List.mem_cons_self _ _)
    have hq : ∀ p ∈ tail, p.lng = c :=
      fun p hp => hql p (List.mem_cons_of_mem _ hp)
    by_cases hseg : straightDist prev cur = 0
    · have hcl : cur.lat = prev.lat := by
        rw [straightDist] at hseg
        linarith
      have hred : arrowLoop straightDist prev (cur :: tail)
          (prev.lat - lat0) next =
          arrowLoop straightDist cur tail (cur.lat - lat0) next := by
        rw [arrowLoop]
        simp only [if_pos hseg, hcl]
      obtain ⟨l1, l2, l3, l4⟩ := ih cur next hcc hq hch2 (by
        rw [hcl]
        exact hinv)
      refine ⟨?_, ?_, ?_, ?_⟩
      · rw [hred, l1, List.getLastD_cons]
      · rw [hred, l2]
      · intro mk hmk
        rw [hred] at hmk
        exact l3 mk hmk
      · intro mk hmk
        rw [hred] at hmk
        rw [List.zip_cons_cons]
        exact List.mem_cons_of_mem _ (l4 mk hmk)
    · have hne : cur.lat - prev.lat ≠ 0 := by
        rw [straightDist] at hseg
        exact hseg
      set seg := straightDist prev cur with hsegdef
      set j := numTargets next (prev.lat - lat0 + seg) with hjdef
      have harg : prev.lat - lat0 + seg = cur.lat - lat0 := by
        rw [hsegdef, straightDist]
        ring
      have hwhile := arrowWhile_eq prev cur seg (prev.lat - lat0) j next
        hjdef.symm
      have hinv2 : cur.lat - lat0 < next + 400 * j := by
        have hx := numTargets_exit next (prev.lat - lat0 + seg)
        rw [← hjdef] at hx
        linarith [harg, hx]
      obtain ⟨l1, l2, l3, l4⟩ := ih cur (next + 400 * j) hcc hq hch2 hinv2
      have hred : arrowLoop straightDist prev (cur :: tail)
          (prev.lat - lat0) next =
          ((List.range j).map fun k : ℕ =>
            mkArrowAt prev cur seg (prev.lat - lat0) (next + 400 * (k : ℚ)))
          ++ arrowLoop straightDist cur tail (cur.lat - lat0)
              (next + 400 * j) := by
        rw [arrowLoop]
        simp only [if_neg hseg, ← hsegdef, hwhile]
        rw [harg]
      have hjlim : j = numTargets next (cur.lat - lat0) := by
        rw [hjdef, harg]
      have hlastle : cur.lat ≤ (tail.getLastD cur).lat :=
        chain_le_getLastD tail cur hch2
      have hadd : numTargets next ((tail.getLastD cur).lat - lat0)
          = j + numTargets (next + 400 * j)
            ((tail.getLastD cur).lat - lat0) := by
        apply nat_eq_of_lt_iff
        intro k
        rw [numTargets_iff]
        constructor
        · intro hk
          rcases lt_or_ge k j with hkj | hkj
          · have := (numTargets_iff next (cur.lat - lat0) k).mp
              (hjlim ▸ hkj)
            omega
          · have hk2 : k - j < numTargets (next + 400 * j)
                ((tail.getLastD cur).lat - lat0) := by
              refine (numTargets_iff (next + 400 * j)
                ((tail.getLastD cur).lat - lat0) (k - j)).mpr ?_
              push_cast [Nat.cast_sub hkj]
              push_cast at hk
              linarith
            omega
        · intro hk
          rcases lt_or_ge k j with hkj | hkj
          · have := (numTargets_iff next (cur.lat - lat0) k).mp
              (hjlim ▸ hkj)
            linarith
          · have hk2 : k - j < numTargets (next + 400 * j)
                ((tail.getLastD cur).lat - lat0) := by omega
            have := (numTargets_iff (next + 400 * j)
              ((tail.getLastD cur).lat - lat0) (k - j)).mp hk2
            push_cast [Nat.cast_sub hkj] at this
            linarith
      have hlatfield : ∀ t : ℚ,
          (mkArrowAt prev cur seg (prev.lat - lat0) t).lat = lat0 + t := by
        intro t
        rw [mkArrowAt, hsegdef, straightDist]
        field_simp
        ring
      have hlngfield : ∀ t : ℚ,
          (mkArrowAt prev cur seg (prev.lat - lat0) t).lng = c := by
        intro t
        rw [mkArrowAt]
        simp only [hpl, hcc]
        ring
      have hlen : (arrowLoop straightDist prev (cur :: tail)
          (prev.lat - lat0) next).length
          = numTargets next ((tail.getLastD cur).lat - lat0) := by
        rw [hred, List.length_append, List.length_map, List.length_range,
          l1, hadd]
      refine ⟨?_, ?_, ?_, ?_⟩
      · rw [hlen, List.getLastD_cons]
      · rw [hlen, hred, List.map_append, hadd, List.range_add,
          List.map_append, List.map_map, List.map_map]
        congr 1
        · apply List.map_congr_left
          intro k _
          simp only [Function.comp]
          rw [hlatfield]
        · rw [l2, l1]
          apply List.map_congr_left
          intro k _
          simp only [Function.comp]
          push_cast
          ring
      · intro mk hmk
        rw [hred, List.mem_append] at hmk
        rcases hmk with hmk | hmk
        · obtain ⟨k, _, hk⟩ := List.mem_map.mp hmk
          rw [← hk, hlngfield]
        · exact l3 mk hmk
      · intro mk hmk
        rw [hred, List.mem_append] at hmk
        rcases hmk with hmk | hmk
        · obtain ⟨k, _, hk⟩ := List.mem_map.mp hmk
          have hprev : mk.prev = prev := by rw [← hk]; rfl
          have hcur : mk.cur = cur := by rw [← hk]; rfl
          rw [hprev, hcur, List.zip_cons_cons]
          exact List.mem_cons_self _ _
        · rw [List.zip_cons_cons]
          exact List.mem_cons_of_mem _ (l4 mk hmk)

/-- Claim C2: for a point sequence forming a straight track (modelled as a
due-north track: nondecreasing latitudes, constant longitude, with the
external geodesic distance being the latitude difference in metres),
`addDirectionArrows` emits `⌊(L - S/2) / S⌋ + 1` arrows for track length
`L ≥ S/2` (`S = 400`) and none otherwise — in particular none for fewer
than 2 points; the `i`-th arrow sits at cumulative distance `S/2 + i·S`
from the start (linear interpolation inside its segment), stays on the
track's longitude, and carries exactly the endpoints of its enclosing
sampled segment, from which its icon bearing is computed. -/
theorem arrow_placement_straight_track (pts : List Pt) (p0 : Pt) (c : ℚ)
    (hhead : pts.head? = some p0)
    (hmono : List.Chain' (fun a b : Pt => a.lat ≤ b.lat) pts)
    (hlng : ∀ p ∈ pts, p.lng = c) :
    ((addDirectionArrows straightDist pts).length
        = specNumArrows ((pts.getLastD p0).lat - p0.lat)
      ∧ (addDirectionArrows straightDist pts).map ArrowMarker.lat
          = (List.range (addDirectionArrows straightDist pts).length).map
              (fun i : ℕ => p0.lat + (200 + 400 * (i : ℚ)))
      ∧ (∀ mk ∈ addDirectionArrows straightDist pts, mk.lng = c)
      ∧ ∀ mk ∈ addDirectionArrows straightDist pts,
          (mk.prev, mk.cur) ∈
            (sampleTrackPoints pts).zip (sampleTrackPoints pts).tail)
    ∧ ∀ pts2 : List Pt, pts2.length < 2 →
        addDirectionArrows straightDist pts2 = [] := by
  have hsmall : ∀ pts2 : List Pt, pts2.length < 2 →
      addDirectionArrows straightDist pts2 = [] := by
    intro pts2 h2
    rw [addDirectionArrows, if_pos h2]
  refine ⟨?_, hsmall⟩
  rcases pts with _ | ⟨p, rest⟩
  · simp at hhead
  · have hp0 : p = p0 := by
      rw [List.head?_cons, Option.some.injEq] at hhead
      exact hhead
    subst hp0
    by_cases hlen2 : (p :: rest).length < 2
    · have hr : rest = [] := by
        rw [List.length_cons] at hlen2
        exact List.length_eq_zero.mp (by omega)
      subst hr
      rw [hsmall _ hlen2]
      refine ⟨?_, by simp, by simp, by simp⟩
      have hL : (([p] : List Pt).getLastD p).lat - p.lat = 0 := by
        simp [List.getLastD]
      rw [hL]
      norm_num [specNumArrows]
    · obtain ⟨tail, hsamp⟩ := sampleTrackPoints_head p rest
      have hsub : (p :: tail).Sublist (p :: rest) := by
        rw [← hsamp]
        exact sampleTrackPoints_sublist (p :: rest)
      haveI : IsTrans Pt (fun a b : Pt => a.lat ≤ b.lat) :=
        ⟨fun _ _ _ h1 h2 => le_trans h1 h2⟩
      have hchain : List.Chain' (fun a b : Pt => a.lat ≤ b.lat) (p :: tail) := by
        rw [List.chain'_iff_pairwise]
        exact (List.chain'_iff_pairwise.mp hmono).sublist hsub
      have hq : ∀ q ∈ tail, q.lng = c := fun q hq =>
        hlng q (hsub.subset (List.mem_cons_of_mem _ hq))
      have hpl : p.lng = c := hlng p (List.mem_cons_self _ _)
      have hloop := arrowLoop_straight c p.lat tail p 200 hpl hq hchain
        (by norm_num)
      rw [show p.lat - p.lat = (0:ℚ) by ring] at hloop
      obtain ⟨l1, l2, l3, l4⟩ := hloop
      have hred : addDirectionArrows straightDist (p :: rest) =
          arrowLoop straightDist p tail 0 200 := by
        rw [addDirectionArrows, if_neg hlen2]
        simp only [hsamp]
      have hglast : tail.getLastD p = rest.getLastD p := by
        have hg1 : (p :: tail).getLast? = (p :: rest).getLast? := by
          rw [← hsamp]
          exact sampleTrackPoints_getLast (p :: rest)
        rw [List.getLast?_cons, List.getLast?_cons, Option.some.injEq] at hg1
        rw [List.getLastD_eq_getLast?, List.getLastD_eq_getLast?]
        exact hg1
      refine ⟨?_, ?_, ?_, ?_⟩
      · rw [hred, l1, hglast]
        have hspec : ∀ L : ℚ, specNumArrows L = numTargets 200 L :=
          fun L => rfl
        rw [hspec, List.getLastD_cons]
      · rw [hred, l2]
      · intro mk hmk
        rw [hred] at hmk
        exact l3 mk hmk
      · intro mk hmk
        rw [hred] at hmk
        rw [hsamp, List.tail_cons]
        exact l4 mk hmk

theorem arrow_placement_straight_track_witness :
    (addDirectionArrows straightDist [⟨0, 7⟩, ⟨1000, 7⟩]).length
        = specNumArrows ((([⟨0, 7⟩, ⟨1000, 7⟩] : List Pt).getLastD ⟨0, 7⟩).lat
            - (⟨0, 7⟩ : Pt).lat)
    ∧ addDirectionArrows straightDist [⟨5, 5⟩] = [] := by
  have h := arrow_placement_straight_track [⟨0, 7⟩, ⟨1000, 7⟩] ⟨0, 7⟩ 7 rfl
    (by
      rw [List.chain'_cons]
      refine ⟨by norm_num, List.chain'_singleton _⟩)
    (by
      intro p hp
      simp only [List.mem_cons, List.not_mem_nil, or_false] at hp
      rcases hp with rfl | rfl <;> rfl)
  exact ⟨h.1.1, h.2 [⟨5, 5⟩] (by norm_num)⟩
